import Mathlib

/-!
Verification of the tawf sitemap compiler and request dispatcher.

The development shallowly embeds the two Python source variants
(`tawdry.py` and `web.py`).  Strings are modelled as `List Char`;
Python dicts (which preserve insertion order) are association lists;
Python exceptions are explicit error values.  Regular-expression
matching only ever uses the fragment produced by `compile_route_regex`
(escaped literal runs and named groups `(?P<name>\w+)` between the `^`
and `$` anchors), so the matcher below implements exactly that
fragment, with Python's greedy backtracking for `\w+` and Python's
semantics for `$` (which also matches just before a single trailing
newline).  `\w` is modelled as ASCII letters, digits and underscore.

Layout: all definitions first (embedded source, then the statement
vocabulary used by the theorems, then concrete test data), followed by
all theorems (general lemmas, then one theorem per claim).
-/

abbrev Str := List Char

/-- One character of Python's `\w` class (ASCII model). -/
def isWordChar (c : Char) : Bool := c.isAlphanum || c = '_'

/-- Ordered-dict lookup (`d[k]`, as `Option`). -/
def assoc {α : Type} (k : Str) : List (Str × α) → Option α
  | [] => none
  | (k', v) :: rest => if k' = k then some v else assoc k rest

/-- Ordered-dict update `d[k] = v`: replaces in place, else appends
(Python dicts keep the original position of an updated key). -/
def setAssoc {α : Type} (k : Str) (v : α) : List (Str × α) → List (Str × α)
  | [] => [(k, v)]
  | (k', v') :: rest =>
      if k' = k then (k', v) :: rest else (k', v') :: setAssoc k v rest

/-- `'/'.join(template)`. -/
def joinSeg : List Str → Str
  | [] => []
  | [s] => s
  | s :: rest => s ++ '/' :: joinSeg rest

inductive Tok where
  | lit : Str → Tok
  | grp : Str → Tok
deriving DecidableEq

/-- Longest `\w*` run at the front of the string. -/
def takeWord : Str → Str × Str
  | [] => ([], [])
  | c :: cs =>
      if isWordChar c then
        let p := takeWord cs
        (c :: p.1, p.2)
      else ([], c :: cs)

/-- Leftmost match of `\{(\w+)\}` (the `segment_regex` of
`compile_route_regex`): returns the text before the match, the group
text, and the text after the match. -/
def findBrace : Str → Option (Str × Str × Str)
  | [] => none
  | c :: cs =>
      if c = '{' then
        match takeWord cs with
        | (w, r) =>
          match w, r with
          | _ :: _, '}' :: rest => some ([], w, rest)
          | _, _ => (findBrace cs).map (fun p => (c :: p.1, p.2.1, p.2.2))
      else (findBrace cs).map (fun p => (c :: p.1, p.2.1, p.2.2))

/-- The `re.finditer` loop of `compile_route_regex`, by fuel: one unit
of fuel per match found.  The fuel-exhausted branch is unreachable
when the fuel is at least the number of matches (each match consumes
at least three characters), which `tokenize` below guarantees. -/
def tokenizeF : Nat → Str → List Tok
  | 0, s => [.lit s]
  | fuel + 1, s =>
      match findBrace s with
      | none => [.lit s]
      | some (b, n, a) => .lit b :: .grp n :: tokenizeF fuel a

/-- The `re.finditer` loop of `compile_route_regex`: the regex pieces
appended for each match, plus the final literal tail (the `^` and `$`
anchors are part of the matcher). -/
def tokenize (s : Str) : List Tok :=
  tokenizeF s.length s

/-- `compile_route_regex(template)` (identical in both source files). -/
def compile_route_regex (template : List Str) : List Tok :=
  tokenize (joinSeg template)

/-- Length of the maximal `\w*` run at the front. -/
def wordRunLen : Str → Nat
  | [] => 0
  | c :: cs => if isWordChar c then wordRunLen cs + 1 else 0

/-- Match a literal (`re.escape`d) chunk: strip it verbatim. -/
def stripPre : Str → Str → Option Str
  | [], s => some s
  | _ :: _, [] => none
  | c :: cs, d :: ds => if c = d then stripPre cs ds else none

/-- Backtracking for one `(?P<n>\w+)` group: try capture lengths from
`k` down to 1 (greedy), continuing with `cont` on the rest. -/
def tryCap (n : Str) (s : Str) (cont : Str → Option (List (Str × Str))) :
    Nat → Option (List (Str × Str))
  | 0 => none
  | k + 1 =>
      match cont (s.drop (k + 1)) with
      | some gs => some ((n, s.take (k + 1)) :: gs)
      | none => tryCap n s cont k

/-- `re.match` of a compiled route pattern against a path, returning
`groupdict()` in group order on success. -/
def reMatch : List Tok → Str → Option (List (Str × Str))
  | [], s => if s = [] ∨ s = ['\n'] then some [] else none
  | .lit l :: ts, s =>
      match stripPre l s with
      | some s' => reMatch ts s'
      | none => none
  | .grp n :: ts, s => tryCap n s (reMatch ts) (wordRunLen s)

inductive Val where
  | vstr : Str → Val
  | vnat : Nat → Val
  | vnone : Val
deriving DecidableEq

/-- Structured HTTP errors (`webob.exc.HTTPException` subclasses). -/
inductive HErr where
  | notFound : HErr
  | badRequest : HErr
  | other : Nat → HErr
deriving DecidableEq

/-- Uncaught Python exceptions, by kind:
`nameError` (unbound local), `keyError` (missing dict key),
`typeError` (subscripting / inspecting a non-mapping non-callable),
`convError` (a type annotation's converter raised),
`stopIteration` (`next()` on an exhausted iterator). -/
inductive RunErr where
  | nameError : RunErr
  | keyError : RunErr
  | typeError : RunErr
  | convError : RunErr
  | stopIteration : RunErr
deriving DecidableEq

/-- A type annotation used as converter; `none` models the converter
raising on that input. -/
abbrev Conv := Val → Option Val

/-- A handler: its signature (parameter names after the leading request
parameter, each with an optional annotation, in declaration order -
this is what `get_parameter_mappings` returns) and its body. -/
structure Handler where
  params : List (Str × Option Conv)
  impl : List (Str × Val) → Except HErr Val

/-- A sitemap node: a nested mapping, a callable, or anything else
(`invalid`, tagged for distinctness). -/
inductive Node where
  | branch : List (Str × Node) → Node
  | leaf : Handler → Node
  | invalid : Str → Node

/-- `map_params(mappings, context)` (identical in both source files):
iterate the context in order; a name missing from the handler's
signature raises `KeyError`; an unannotated name passes through; an
annotated name is passed through its converter, which may raise. -/
def map_params (mappings : List (Str × Option Conv)) :
    List (Str × Val) → Except RunErr (List (Str × Val))
  | [] => .ok []
  | (nm, v) :: rest =>
      match assoc nm mappings with
      | none => .error .keyError
      | some none =>
          match map_params mappings rest with
          | .error e => .error e
          | .ok r => .ok ((nm, v) :: r)
      | some (some cf) =>
          match cf v with
          | none => .error .convError
          | some v' =>
              match map_params mappings rest with
              | .error e => .error e
              | .ok r => .ok ((nm, v') :: r)

/-- `sitemap_context[segment]`: dict lookup raises `KeyError` on a
missing key; subscripting a function or an invalid node raises
`TypeError`. -/
def lookupNode (nd : Node) (seg : Str) : Except RunErr Node :=
  match nd with
  | .branch ch =>
      match assoc seg ch with
      | some c => .ok c
      | none => .error .keyError
  | .leaf _ => .error .typeError
  | .invalid _ => .error .typeError

/-- The `resource_callable` selection of `get_route_response`:
a callable node is the resource when the segment is non-empty; a
mapping contributes its `''` entry; `'' in <non-mapping>` raises
`TypeError`. -/
def resourceOf (nd : Node) (seg : Str) : Except RunErr (Option Node) :=
  match nd with
  | .leaf h => .ok (if seg ≠ [] then some (.leaf h) else none)
  | .branch ch => .ok (assoc [] ch)
  | .invalid _ => .error .typeError

/-- Python truthiness of a candidate `resource_callable` (`if
resource_callable:`): functions are truthy, a dict is truthy iff
non-empty; invalid nodes are modelled as truthy. -/
def nodeTruthy : Node → Bool
  | .branch ch => !ch.isEmpty
  | .leaf _ => true
  | .invalid _ => true

/-- `segment.startswith('{') and segment.endswith('}')`. -/
def startsEndsBrace (s : Str) : Bool :=
  match s with
  | [] => false
  | c :: rest =>
      c = '{' &&
        match (c :: rest).getLast? with
        | some d => d = '}'
        | none => false

/-- The outcome of `get_route_response`: a normal return value, a
raised `HTTPException`, or any other uncaught exception. -/
inductive Outcome where
  | ok : Val → Outcome
  | http : HErr → Outcome
  | uncaught : RunErr → Outcome
deriving DecidableEq

/-- The `for segment in route_template:` loop of `get_route_response`
(named `get_url_vars` in `web.py`), with the loop state explicit:
the current `sitemap_context`, `url_context`, the last-assigned
`keyword` (`none` when the local is still unbound) and the
last-assigned `response` (`none` when still unbound). -/
def walk (urlvars : List (Str × Str)) :
    List Str → Node → List (Str × Val) → Option Str → Option Val → Outcome
  | [], _, _, _, resp =>
      match resp with
      | some v => .ok v
      | none => .uncaught .nameError
  | seg :: rest, ctxNode, urlctx, kw, resp =>
      let step : Except RunErr (List (Str × Val) × Option Str) :=
        if startsEndsBrace seg then
          let k := (seg.drop 1).dropLast
          match assoc k urlvars with
          | none => .error .keyError
          | some raw => .ok (setAssoc k (.vstr raw) urlctx, some k)
        else .ok (urlctx, kw)
      match step with
      | .error e => .uncaught e
      | .ok (urlctx', kw') =>
          match lookupNode ctxNode seg with
          | .error e => .uncaught e
          | .ok nd =>
              match resourceOf nd seg with
              | .error e => .uncaught e
              | .ok none => walk urlvars rest nd urlctx' kw' resp
              | .ok (some rc) =>
                  if nodeTruthy rc then
                    match rc with
                    | .leaf h =>
                        match map_params h.params urlctx' with
                        | .error e => .uncaught e
                        | .ok ctx2 =>
                            match h.impl ctx2 with
                            | .error he => .http he
                            | .ok v =>
                                match kw' with
                                | none => .uncaught .nameError
                                | some k =>
                                    walk urlvars rest nd
                                      (setAssoc k v ctx2) kw' (some v)
                    | _ => .uncaught .typeError
                  else walk urlvars rest nd urlctx' kw' resp

/-- `get_route_response(sitemap, route_template, request)`: drop the
first template segment (`next(route_template)`; an empty template
raises `StopIteration`), then run the loop from the sitemap root with
`url_context = {}` and the locals `keyword` and `response` unbound. -/
def get_route_response (sitemap : Node) (template : List Str)
    (urlvars : List (Str × Str)) : Outcome :=
  match template with
  | [] => .uncaught .stopIteration
  | _ :: rest => walk urlvars rest sitemap [] none none

/-- A finished WSGI response: a rendered body, a structured HTTP error
response, or an exception that escaped to the server boundary. -/
inductive Final where
  | body : Val → Final
  | httpResp : HErr → Final
  | crash : RunErr → Final
deriving DecidableEq

/-- The `replacement` closure of `make_route_response`: only
`HTTPException` is caught and turned into a response; a normal value
is rendered into a response body; any other exception propagates.
(The response-class selection via the handler's return annotation is a
rendering concern and is not modelled beyond wrapping.) -/
def make_route_response (o : Outcome) : Final :=
  match o with
  | .ok v => .body v
  | .http e => .httpResp e
  | .uncaught e => .crash e

/-- `Tawdry.__call__` / `Router.__call__`: try the compiled routes in
declaration order; on the first regex match run that route's
controller with `request.urlvars = match.groupdict()`; otherwise
return `HTTPNotFound()`. -/
def routerCall (routes : List (List Tok × (List (Str × Str) → Final)))
    (path : Str) : Final :=
  match routes with
  | [] => .httpResp .notFound
  | (pat, ctrl) :: rest =>
      match reMatch pat path with
      | some gs => ctrl gs
      | none => routerCall rest path

/-- `generate_sitemap` of `tawdry.py`: the loop over `sitemap.items()`
with the accumulated `prefix`.  Note the faithful `prefix = prefix +
[segment]` reassignment in the callable case: it feeds into the
processing of the remaining siblings. -/
def generate_sitemap : List (Str × Node) → List Str →
    Except Str (List (List Str × Handler))
  | [], _ => .ok []
  | (seg, nd) :: rest, px =>
      match nd with
      | .branch ch =>
          match generate_sitemap ch (px ++ [seg]) with
          | .error e => .error e
          | .ok inner =>
              match generate_sitemap rest px with
              | .error e => .error e
              | .ok tl => .ok (inner ++ tl)
      | .leaf h =>
          let px' := if seg ≠ [] then px ++ [seg] else px
          match generate_sitemap rest px' with
          | .error e => .error e
          | .ok tl => .ok ((px', h) :: tl)
      | .invalid _ => .error ("Invalid datatype for sitemap".data)

/-- `Tawdry.__init__(sitemap, prefix='')`: compile every generated
route into a `(pattern, controller)` pair (the generator is fully
consumed here, before any request is served). -/
def tawdryInit (sitemap : List (Str × Node)) :
    Except Str (List (List Tok × (List (Str × Str) → Final))) :=
  match generate_sitemap sitemap [[]] with
  | .error e => .error e
  | .ok routes =>
      .ok (routes.map (fun r =>
        (compile_route_regex r.1,
         fun gs => make_route_response
           (get_route_response (.branch sitemap) r.1 gs))))

/-- The whole application on one request: construct the app, then
dispatch the path. -/
def tawdryApp (sitemap : List (Str × Node)) (path : Str) :
    Except Str Final :=
  match tawdryInit sitemap with
  | .error e => .error e
  | .ok routes => .ok (routerCall routes path)

inductive PyVal where
  | pstr : Str → PyVal
  | plist : List PyVal → PyVal

/-- `generate_sitemap` of `web.py`.  The argument `pre` models the
`prefix` parameter (`none` = Python `None`); the loop body follows the
source, including `segment = [segment]` and the unconditionally-true
`if segment:` test on that singleton list. -/
def generate_sitemap_web (sitemap : List (Str × Node)) (pre : Option PyVal) :
    Except Str (List (List PyVal × Handler)) :=
  let px : List PyVal :=
    match pre with
    | none => []
    | some v => [v]
  go sitemap px
where
  go : List (Str × Node) → List PyVal → Except Str (List (List PyVal × Handler))
  | [], _ => .ok []
  | (seg, nd) :: rest, px =>
      let segL : List PyVal := [.pstr seg]
      match nd with
      | .branch ch =>
          match generate_sitemap_web ch (some (.plist (px ++ segL))) with
          | .error e => .error e
          | .ok inner =>
              match go rest px with
              | .error e => .error e
              | .ok tl => .ok (inner ++ tl)
      | .leaf h =>
          let result := if segL.isEmpty then px else px ++ segL
          match go rest px with
          | .error e => .error e
          | .ok tl => .ok ((result, h) :: tl)
      | .invalid _ => .error ("Invalid datatype for sitemap".data)

/-- Reassemble a path from a token list and a capture list (captures
consumed positionally, one per group). -/
def buildStr : List Tok → List (Str × Str) → Str
  | [], _ => []
  | .lit l :: ts, gs => l ++ buildStr ts gs
  | .grp _ :: _, [] => []
  | .grp _ :: ts, (_, v) :: gs => v ++ buildStr ts gs

/-- The capture list lines up with the groups of the token list: one
entry per group, carrying that group's name and a non-empty all-word
capture. -/
def gsAligned : List Tok → List (Str × Str) → Prop
  | [], gs => gs = []
  | .lit _ :: ts, gs => gsAligned ts gs
  | .grp _ :: _, [] => False
  | .grp n :: ts, (m, v) :: gs =>
      n = m ∧ v ≠ [] ∧ (∀ c ∈ v, isWordChar c) ∧ gsAligned ts gs

/-- Prepend a literal run to a token list (token lists produced by the
finditer loop always begin with a literal chunk). -/
def mergeLit (p : Str) : List Tok → List Tok
  | .lit b :: ts => .lit (p ++ b) :: ts
  | ts => .lit p :: ts

/-- Recognise a whole-segment placeholder key: `{name}` with `name` a
non-empty word-character run. -/
def phParse : Str → Option Str
  | '{' :: rest =>
      match rest.getLast? with
      | some '}' =>
          let mid := rest.dropLast
          if mid ≠ [] ∧ ∀ c ∈ mid, isWordChar c then some mid else none
      | _ => none
  | _ => none

/-- A template entry the route compiler can produce: a whole-segment
placeholder or a brace-free literal. -/
inductive SegOk : Str → Prop
  | ph (n : Str) (hn : n ≠ []) (hw : ∀ c ∈ n, isWordChar c) :
      SegOk ('{' :: (n ++ ['}']))
  | litr (s : Str) (hb : ∀ c ∈ s, c ≠ '{') : SegOk s

/-- The token list of a segment-structured template: literal chunks
carrying the slashes, one group per placeholder. -/
def canonToks : List Str → List Tok
  | [] => [.lit []]
  | s :: rest =>
      let tl : List Tok :=
        match rest with
        | [] => [.lit []]
        | _ :: _ => mergeLit ['/'] (canonToks rest)
      match phParse s with
      | some n => .lit [] :: .grp n :: tl
      | none => mergeLit s tl

/-- Substitute captures (consumed positionally) for the placeholder
entries of a template. -/
def substTemplate : List Str → List (Str × Str) → List Str
  | [], _ => []
  | s :: rest, gs =>
      match phParse s with
      | some _ =>
          match gs with
          | (_, v) :: gs' => v :: substTemplate rest gs'
          | [] => s :: substTemplate rest []
      | none => s :: substTemplate rest gs

/-- The `int` annotation as a converter: accepts a digit string or a
number, raises (`none`) on anything else. -/
def toIntConv : Conv := fun v =>
  match v with
  | .vstr s =>
      if s ≠ [] ∧ ∀ c ∈ s, c.isDigit then
        some (.vnat (s.foldl (fun acc c => acc * 10 + (c.toNat - 48)) 0))
      else none
  | .vnat n => some (.vnat n)
  | .vnone => none

/-- A handler with no path parameters returning a fixed value. -/
def constHandler (v : Val) : Handler := ⟨[], fun _ => .ok v⟩

/-- `publisher`-style outer handler: one unannotated parameter `x`,
returns the resolved resource (a fixed value here). -/
def c1OuterH : Handler :=
  ⟨[("x".data, none)], fun _ => .ok (.vstr "42".data)⟩

/-- `author`-style inner handler with `x` *annotated* `int`; it
returns the value it received for `x`, making the handoff observable. -/
def c1InnerH : Handler :=
  ⟨[("x".data, some toIntConv)],
   fun ctx => .ok ((assoc "x".data ctx).getD .vnone)⟩

/-- `{'{x}': {'': outer, 'g': inner}}`. -/
def c1Sitemap : List (Str × Node) :=
  [("{x}".data, .branch [([], .leaf c1OuterH), ("g".data, .leaf c1InnerH)])]

/-- The chaining family: outer returns `V`, inner (unannotated) is an
arbitrary handler body `G`. -/
def c1Fam (V : Val) (G : List (Str × Val) → Except HErr Val) : Node :=
  .branch [("{x}".data, .branch
    [([], .leaf ⟨[("x".data, none)], fun _ => .ok V⟩),
     ("g".data, .leaf ⟨[("x".data, none)], G⟩)])]

/-- Sibling contamination family for the re-walk: a placeholder leaf
followed by a literal leaf at the same level. -/
def c4Fam (F : List (Str × Val) → Val) : List (Str × Node) :=
  [("{x}".data, .leaf ⟨[("x".data, none)], fun ctx => .ok (F ctx)⟩),
   ("b".data, .leaf (constHandler .vnone))]

/-- A single placeholder route whose handler annotates `x` with `cf`. -/
def c5Fam (cf : Conv) : List (Str × Node) :=
  [("{x}".data, .leaf ⟨[("x".data, some cf)], fun _ => .ok .vnone⟩)]

/-! ## Theorems -/

theorem takeWord_spec (cs : Str) :
    cs = (takeWord cs).1 ++ (takeWord cs).2 ∧
      ∀ c ∈ (takeWord cs).1, isWordChar c := by
  induction cs with
  | nil => simp [takeWord]
  | cons c cs ih =>
      by_cases h : isWordChar c
      · simpa [takeWord, h] using ih
      · simp [takeWord, h]

theorem findBrace_map_inv {cs : Str} {c : Char} {b n a : Str}
    (h : (findBrace cs).map (fun p => (c :: p.1, p.2.1, p.2.2)) = some (b, n, a)) :
    ∃ b', findBrace cs = some (b', n, a) ∧ b = c :: b' := by
  cases hfb : findBrace cs with
  | none => rw [hfb] at h; simp at h
  | some p =>
      obtain ⟨b', n', a'⟩ := p
      rw [hfb] at h
      simp at h
      obtain ⟨h1, h2, h3⟩ := h
      subst h2
      subst h3
      exact ⟨b', rfl, h1.symm⟩

theorem findBrace_decomp :
    ∀ s b n a, findBrace s = some (b, n, a) →
      s = b ++ '{' :: (n ++ '}' :: a) ∧ n ≠ [] ∧ ∀ c ∈ n, isWordChar c := by
  intro s
  induction s with
  | nil => intro b n a h; simp [findBrace] at h
  | cons c cs ih =>
      intro b n a h
      by_cases hc : c = '{'
      · subst hc
        rw [findBrace.eq_def] at h
        simp only [reduceIte] at h
        rcases htw : takeWord cs with ⟨w, r⟩
        rw [htw] at h
        split at h
        · next hd tl rest' heq1 heq2 =>
            simp only [] at heq1 heq2
            simp at h
            obtain ⟨hb, hn, ha⟩ := h
            have hs := takeWord_spec cs
            rw [htw] at hs
            simp only [] at hs
            subst hb ha
            refine ⟨?_, ?_, ?_⟩
            · simp [hs.1, heq2, ← hn]
            · rw [← hn, heq1]; simp
            · intro x hx
              exact hs.2 x (hn ▸ hx)
        · obtain ⟨b', hfb, hb⟩ := findBrace_map_inv h
          obtain ⟨hs, hne, hw⟩ := ih b' n a hfb
          exact ⟨by simp [hb, hs], hne, hw⟩
      · rw [findBrace.eq_def] at h
        simp only [hc, reduceIte] at h
        obtain ⟨b', hfb, hb⟩ := findBrace_map_inv h
        obtain ⟨hs, hne, hw⟩ := ih b' n a hfb
        exact ⟨by simp [hb, hs], hne, hw⟩

theorem findBrace_length {s b n a} (h : findBrace s = some (b, n, a)) :
    a.length < s.length := by
  obtain ⟨hs, -, -⟩ := findBrace_decomp s b n a h
  subst hs
  simp
  omega

/-- Any fuel at least the string's length runs the finditer loop to
completion, so all such fuels agree. -/
theorem tokenizeF_stable :
    ∀ fuel s, s.length ≤ fuel → tokenizeF fuel s = tokenize s := by
  intro fuel
  induction fuel using Nat.strong_induction_on with
  | _ fuel ih =>
      intro s hle
      match fuel with
      | 0 =>
          have : s = [] := List.length_eq_zero.mp (Nat.le_zero.mp hle)
          subst this
          rfl
      | fuel + 1 =>
          rw [tokenizeF]
          cases hfb : findBrace s with
          | none =>
              unfold tokenize
              cases hl : s.length with
              | zero =>
                  have : s = [] := List.length_eq_zero.mp hl
                  subst this
                  rfl
              | succ m => rw [tokenizeF, hfb]
          | some p =>
              obtain ⟨b, n, a⟩ := p
              have hlen := findBrace_length hfb
              have h1 : tokenizeF fuel a = tokenize a :=
                ih fuel (Nat.lt_succ_self fuel) a (by omega)
              have h2 : tokenizeF (a.length) a = tokenize a := by
                unfold tokenize; rfl
              unfold tokenize
              cases hl : s.length with
              | zero =>
                  have : s = [] := List.length_eq_zero.mp hl
                  subst this
                  simp [findBrace] at hfb
              | succ m =>
                  rw [tokenizeF, hfb]
                  have h3 : tokenizeF m a = tokenize a :=
                    ih m (by omega) a (by omega)
                  simp only [h1, h3]

theorem stripPre_sound :
    ∀ l s s', stripPre l s = some s' → s = l ++ s' := by
  intro l
  induction l with
  | nil => intro s s' h; simp [stripPre] at h; simp [h]
  | cons c cs ih =>
      intro s s' h
      cases s with
      | nil => simp [stripPre] at h
      | cons d ds =>
          rw [stripPre] at h
          by_cases hcd : c = d
          · subst hcd
            simp at h
            have := ih ds s' h
            simp [this]
          · simp [hcd] at h

theorem wordRunLen_le_length : ∀ s : Str, wordRunLen s ≤ s.length := by
  intro s
  induction s with
  | nil => simp [wordRunLen]
  | cons c cs ih =>
      rw [wordRunLen]
      by_cases h : isWordChar c
      · simp [h]
        omega
      · simp [h]

theorem wordRunLen_take :
    ∀ (s : Str) (m : Nat), m ≤ wordRunLen s → ∀ c ∈ s.take m, isWordChar c := by
  intro s
  induction s with
  | nil => intro m _ c hc; simp at hc
  | cons d ds ih =>
      intro m hm c hc
      rw [wordRunLen] at hm
      by_cases hd : isWordChar d
      · simp only [hd, if_pos] at hm
        cases m with
        | zero => simp at hc
        | succ m' =>
            simp [List.take] at hc
            rcases hc with rfl | hc
            · exact hd
            · exact ih m' (by omega) c hc
      · simp only [hd, if_neg, Bool.false_eq_true, reduceIte] at hm
        have : m = 0 := by omega
        subst this
        simp at hc

theorem tryCap_sound (n : Str) (ts : List Tok) (s : Str) :
    ∀ k gs, k ≤ wordRunLen s →
      tryCap n s (reMatch ts) k = some gs →
      ∃ m gs', gs = (n, s.take m) :: gs' ∧ 1 ≤ m ∧ m ≤ k ∧
        reMatch ts (s.drop m) = some gs' := by
  intro k
  induction k with
  | zero => intro gs _ h; simp [tryCap] at h
  | succ k ih =>
      intro gs hk h
      rw [tryCap] at h
      cases hrm : reMatch ts (s.drop (k + 1)) with
      | some gs' =>
          rw [hrm] at h
          simp at h
          exact ⟨k + 1, gs', h.symm, by omega, by omega, hrm⟩
      | none =>
          rw [hrm] at h
          obtain ⟨m, gs', hgs, h1, h2, h3⟩ := ih gs (by omega) h
          exact ⟨m, gs', hgs, h1, by omega, h3⟩

theorem reMatch_sound :
    ∀ toks s gs, reMatch toks s = some gs →
      (s = buildStr toks gs ∨ s = buildStr toks gs ++ ['\n']) ∧
        gsAligned toks gs := by
  intro toks
  induction toks with
  | nil =>
      intro s gs h
      rw [reMatch] at h
      split at h
      · next hs =>
          simp at h
          subst h
          rcases hs with rfl | rfl
          · exact ⟨Or.inl rfl, rfl⟩
          · exact ⟨Or.inr rfl, rfl⟩
      · simp at h
  | cons t ts ih =>
      intro s gs h
      match t with
      | .lit l =>
          rw [reMatch] at h
          cases hsp : stripPre l s with
          | none => rw [hsp] at h; simp at h
          | some s' =>
              rw [hsp] at h
              have hdec := stripPre_sound l s s' hsp
              obtain ⟨hrest, halign⟩ := ih s' gs h
              subst hdec
              constructor
              · rcases hrest with h' | h'
                · exact Or.inl (by simp [buildStr, h'])
                · exact Or.inr (by simp [buildStr, h'])
              · exact halign
      | .grp n =>
          rw [reMatch] at h
          obtain ⟨m, gs', hgs, h1, h2, h3⟩ :=
            tryCap_sound n ts s (wordRunLen s) gs (le_refl _) h
          subst hgs
          obtain ⟨hrest, halign⟩ := ih (s.drop m) gs' h3
          have hsplit : s = s.take m ++ s.drop m := (List.take_append_drop m s).symm
          have hne : s.take m ≠ [] := by
            have hm : m ≤ s.length :=
              le_trans h2 (wordRunLen_le_length s)
            intro hemp
            have h0 : (s.take m).length = 0 := by rw [hemp]; rfl
            rw [List.length_take] at h0
            omega
          refine ⟨?_, rfl, hne, wordRunLen_take s m h2, halign⟩
          rcases hrest with h' | h'
          · exact Or.inl (by
              simp only [buildStr]
              rw [← h']
              exact hsplit)
          · exact Or.inr (by
              simp only [buildStr, List.append_assoc]
              rw [← h']
              exact hsplit)

/-- Every capture of a successful match is non-empty and all word
characters. -/
theorem gsAligned_caps :
    ∀ toks gs, gsAligned toks gs →
      ∀ p ∈ gs, p.2 ≠ [] ∧ ∀ c ∈ p.2, isWordChar c := by
  intro toks
  induction toks with
  | nil => intro gs h p hp; rw [gsAligned] at h; subst h; simp at hp
  | cons t ts ih =>
      intro gs h p hp
      match t with
      | .lit l => exact ih gs h p hp
      | .grp n =>
          match gs with
          | [] => rw [gsAligned] at h; exact h.elim
          | (m, v) :: gs' =>
              rw [gsAligned] at h
              obtain ⟨-, hv, hw, halign⟩ := h
              rcases List.mem_cons.mp hp with heq | hp'
              · subst heq; exact ⟨hv, hw⟩
              · exact ih gs' halign p hp'

theorem takeWord_append {w : Str} (d : Char) (r : Str)
    (hw : ∀ c ∈ w, isWordChar c) (hd : ¬ isWordChar d) :
    takeWord (w ++ d :: r) = (w, d :: r) := by
  induction w with
  | nil => simp [takeWord, hd]
  | cons c cs ih =>
      have hc : isWordChar c := hw c (by simp)
      have ih' := ih (fun x hx => hw x (by simp [hx]))
      simp [takeWord, hc, ih']

theorem findBrace_cons_ne {c : Char} (hc : c ≠ '{') (cs : Str) :
    findBrace (c :: cs) =
      (findBrace cs).map (fun p => (c :: p.1, p.2.1, p.2.2)) := by
  rw [findBrace.eq_def]
  simp [hc]

theorem findBrace_append_left :
    ∀ p s, (∀ c ∈ p, c ≠ '{') →
      findBrace (p ++ s) =
        (findBrace s).map (fun q => (p ++ q.1, q.2.1, q.2.2)) := by
  intro p
  induction p with
  | nil =>
      intro s _
      cases h : findBrace s with
      | none => simp [h]
      | some q => obtain ⟨b, n, a⟩ := q; simp [h]
  | cons c cs ih =>
      intro s hp
      have hc : c ≠ '{' := hp c (by simp)
      rw [List.cons_append, findBrace_cons_ne hc]
      rw [ih s (fun x hx => hp x (by simp [hx]))]
      cases h : findBrace s with
      | none => simp
      | some q => obtain ⟨b, n, a⟩ := q; simp

theorem findBrace_ph (n rest : Str) (hn : n ≠ [])
    (hw : ∀ c ∈ n, isWordChar c) :
    findBrace ('{' :: (n ++ '}' :: rest)) = some ([], n, rest) := by
  have hbr : ¬ isWordChar '}' := by decide
  rw [findBrace.eq_def]
  simp only [reduceIte]
  rw [takeWord_append '}' rest hw hbr]
  match n, hn with
  | c :: cs, _ => rfl

theorem tokenizeF_head_lit :
    ∀ fuel s, ∃ b ts, tokenizeF fuel s = .lit b :: ts := by
  intro fuel s
  match fuel with
  | 0 => exact ⟨s, [], rfl⟩
  | fuel + 1 =>
      rw [tokenizeF]
      cases h : findBrace s with
      | none => exact ⟨s, [], rfl⟩
      | some q =>
          obtain ⟨b, n, a⟩ := q
          exact ⟨b, _, rfl⟩

theorem tokenizeF_mergeLit :
    ∀ fuel p s, (∀ c ∈ p, c ≠ '{') →
      tokenizeF fuel (p ++ s) = mergeLit p (tokenizeF fuel s) := by
  intro fuel p s hp
  match fuel with
  | 0 => rfl
  | fuel + 1 =>
      rw [tokenizeF, tokenizeF, findBrace_append_left p s hp]
      cases h : findBrace s with
      | none => rfl
      | some q =>
          obtain ⟨b, n, a⟩ := q
          rfl

theorem tokenize_mergeLit (p s : Str) (hp : ∀ c ∈ p, c ≠ '{') :
    tokenize (p ++ s) = mergeLit p (tokenize s) := by
  unfold tokenize
  rw [show (p ++ s).length = p.length + s.length by simp]
  rw [tokenizeF_mergeLit (p.length + s.length) p s hp]
  rw [tokenizeF_stable (p.length + s.length) s (by omega)]
  rfl

theorem tokenize_ph (n rest : Str) (hn : n ≠ [])
    (hw : ∀ c ∈ n, isWordChar c) :
    tokenize ('{' :: (n ++ '}' :: rest)) = .lit [] :: .grp n :: tokenize rest := by
  unfold tokenize
  rw [show ('{' :: (n ++ '}' :: rest)).length = n.length + rest.length + 2 by
    simp; omega]
  rw [tokenizeF, findBrace_ph n rest hn hw]
  show Tok.lit [] :: Tok.grp n :: tokenizeF (n.length + rest.length + 1) rest =
    Tok.lit [] :: Tok.grp n :: tokenizeF rest.length rest
  rw [tokenizeF_stable (n.length + rest.length + 1) rest (by omega)]
  rfl

theorem phParse_ph (n : Str) (hn : n ≠ []) (hw : ∀ c ∈ n, isWordChar c) :
    phParse ('{' :: (n ++ ['}'])) = some n := by
  rw [phParse]
  rw [show (n ++ ['}']).getLast? = some '}' by simp]
  simp only [List.dropLast_concat]
  rw [if_pos ⟨hn, hw⟩]

theorem phParse_lit (s : Str) (hb : ∀ c ∈ s, c ≠ '{') :
    phParse s = none := by
  cases s with
  | nil => rfl
  | cons c cs =>
      have hc : c ≠ '{' := hb c (by simp)
      rw [phParse.eq_def]
      split
      · next rest heq =>
          exact absurd (List.cons_eq_cons.mp heq).1 hc
      · rfl

theorem tokenize_canon :
    ∀ segs, (∀ s ∈ segs, SegOk s) → tokenize (joinSeg segs) = canonToks segs := by
  intro segs
  induction segs with
  | nil => intro _; rfl
  | cons s rest ih =>
      intro hok
      have hs := hok s (by simp)
      have hrest : ∀ x ∈ rest, SegOk x := fun x hx => hok x (by simp [hx])
      have ihr := ih hrest
      cases rest with
      | nil =>
          rw [show joinSeg [s] = s from rfl]
          rw [show canonToks [s] =
              (match phParse s with
               | some n => [Tok.lit [], Tok.grp n, Tok.lit []]
               | none => mergeLit s [Tok.lit []]) from rfl]
          cases hs with
          | ph n hn hw =>
              rw [phParse_ph n hn hw]
              have := tokenize_ph n [] hn hw
              simpa using this
          | litr s hb =>
              rw [phParse_lit s hb]
              have : tokenize (s ++ []) = mergeLit s (tokenize []) :=
                tokenize_mergeLit s [] hb
              simpa using this
      | cons r rest' =>
          rw [show joinSeg (s :: r :: rest') = s ++ '/' :: joinSeg (r :: rest')
              from rfl]
          rw [show canonToks (s :: r :: rest') =
              (match phParse s with
               | some n =>
                   Tok.lit [] :: Tok.grp n :: mergeLit ['/'] (canonToks (r :: rest'))
               | none => mergeLit s (mergeLit ['/'] (canonToks (r :: rest'))))
              from rfl]
          have hslash : tokenize ('/' :: joinSeg (r :: rest')) =
              mergeLit ['/'] (tokenize (joinSeg (r :: rest'))) := by
            have := tokenize_mergeLit ['/'] (joinSeg (r :: rest')) (by decide)
            simpa using this
          cases hs with
          | ph n hn hw =>
              rw [phParse_ph n hn hw]
              have h1 : '{' :: (n ++ ['}']) ++ '/' :: joinSeg (r :: rest') =
                  '{' :: (n ++ '}' :: ('/' :: joinSeg (r :: rest'))) := by simp
              rw [h1, tokenize_ph n _ hn hw, hslash, ihr]
          | litr s hb =>
              rw [phParse_lit s hb]
              rw [tokenize_mergeLit s _ hb, hslash, ihr]

theorem buildStr_mergeLit (p : Str) (ts : List Tok) (gs : List (Str × Str)) :
    buildStr (mergeLit p ts) gs = p ++ buildStr ts gs := by
  match ts with
  | [] => simp [mergeLit, buildStr]
  | .lit b :: ts' => simp [mergeLit, buildStr]
  | .grp n :: ts' => simp [mergeLit, buildStr]

theorem gsAligned_mergeLit (p : Str) (ts : List Tok) (gs : List (Str × Str)) :
    gsAligned (mergeLit p ts) gs ↔ gsAligned ts gs := by
  match ts with
  | [] => simp [mergeLit, gsAligned]
  | .lit b :: ts' => simp [mergeLit, gsAligned]
  | .grp n :: ts' => simp [mergeLit, gsAligned]

theorem canonToks_one_ph {s n : Str} (h : phParse s = some n) :
    canonToks [s] = [.lit [], .grp n, .lit []] := by
  simp [canonToks, h]

theorem canonToks_one_lit {s : Str} (h : phParse s = none) :
    canonToks [s] = mergeLit s [.lit []] := by
  simp [canonToks, h]

theorem canonToks_cons2_ph {s n : Str} (r : Str) (rest' : List Str)
    (h : phParse s = some n) :
    canonToks (s :: r :: rest') =
      .lit [] :: .grp n :: mergeLit ['/'] (canonToks (r :: rest')) := by
  simp [canonToks, h]

theorem canonToks_cons2_lit {s : Str} (r : Str) (rest' : List Str)
    (h : phParse s = none) :
    canonToks (s :: r :: rest') =
      mergeLit s (mergeLit ['/'] (canonToks (r :: rest'))) := by
  simp [canonToks, h]

theorem substTemplate_cons_ph {s n : Str} (rest : List Str) (m v : Str)
    (gs' : List (Str × Str)) (h : phParse s = some n) :
    substTemplate (s :: rest) ((m, v) :: gs') = v :: substTemplate rest gs' := by
  simp [substTemplate, h]

theorem substTemplate_cons_lit {s : Str} (rest : List Str)
    (gs : List (Str × Str)) (h : phParse s = none) :
    substTemplate (s :: rest) gs = s :: substTemplate rest gs := by
  simp [substTemplate, h]

theorem substTemplate_ne_nil (s : Str) (rest : List Str) (gs : List (Str × Str)) :
    substTemplate (s :: rest) gs ≠ [] := by
  cases hps : phParse s with
  | none => simp [substTemplate, hps]
  | some n =>
      cases gs with
      | nil => simp [substTemplate, hps]
      | cons g gs' => obtain ⟨m, v⟩ := g; simp [substTemplate, hps]

theorem joinSeg_cons_ne (v : Str) (L : List Str) (h : L ≠ []) :
    joinSeg (v :: L) = v ++ '/' :: joinSeg L := by
  cases L with
  | nil => exact absurd rfl h
  | cons x xs => rfl

theorem canon_build :
    ∀ segs gs, gsAligned (canonToks segs) gs →
      buildStr (canonToks segs) gs = joinSeg (substTemplate segs gs) := by
  intro segs
  induction segs with
  | nil =>
      intro gs halign
      rw [show canonToks [] = [Tok.lit []] from rfl] at halign
      rw [gsAligned, gsAligned] at halign
      subst halign
      rfl
  | cons s rest ih =>
      intro gs halign
      cases hps : phParse s with
      | some n =>
          cases rest with
          | nil =>
              rw [canonToks_one_ph hps] at halign ⊢
              rw [gsAligned] at halign
              match gs, halign with
              | (m, v) :: gs', halign =>
                  rw [gsAligned] at halign
                  obtain ⟨hnm, hv, hw, halign'⟩ := halign
                  rw [gsAligned, gsAligned] at halign'
                  subst halign'
                  rw [substTemplate_cons_ph [] m v [] hps]
                  simp [buildStr, substTemplate, joinSeg]
          | cons r rest' =>
              rw [canonToks_cons2_ph r rest' hps] at halign ⊢
              rw [gsAligned] at halign
              match gs, halign with
              | (m, v) :: gs', halign =>
                  rw [gsAligned] at halign
                  obtain ⟨hnm, hv, hw, halign'⟩ := halign
                  rw [gsAligned_mergeLit] at halign'
                  have hb := ih gs' halign'
                  rw [substTemplate_cons_ph (r :: rest') m v gs' hps]
                  rw [show buildStr
                      (Tok.lit [] :: Tok.grp n ::
                        mergeLit ['/'] (canonToks (r :: rest'))) ((m, v) :: gs') =
                      v ++ buildStr (mergeLit ['/'] (canonToks (r :: rest'))) gs'
                      from by simp [buildStr]]
                  rw [buildStr_mergeLit, hb]
                  rw [joinSeg_cons_ne v _ (substTemplate_ne_nil r rest' gs')]
                  rfl
      | none =>
          cases rest with
          | nil =>
              rw [canonToks_one_lit hps] at halign ⊢
              rw [gsAligned_mergeLit] at halign
              rw [gsAligned, gsAligned] at halign
              subst halign
              rw [substTemplate_cons_lit [] [] hps]
              simp [buildStr_mergeLit, buildStr, substTemplate, joinSeg]
          | cons r rest' =>
              rw [canonToks_cons2_lit r rest' hps] at halign ⊢
              rw [gsAligned_mergeLit, gsAligned_mergeLit] at halign
              have hb := ih gs halign
              rw [substTemplate_cons_lit (r :: rest') gs hps]
              rw [buildStr_mergeLit, buildStr_mergeLit, hb]
              rw [joinSeg_cons_ne s _ (substTemplate_ne_nil r rest' gs)]
              rfl

/-- A handler invocation reached while the `keyword` local is still
unbound crashes on the store-back line, whatever the surrounding
state, provided the handler itself returns normally. -/
theorem walk_invoke_unbound (urlvars : List (Str × Str)) (seg : Str)
    (rest : List Str) (node nd : Node) (urlctx ctx2 : List (Str × Val))
    (resp : Option Val) (h : Handler) (v : Val)
    (hseg : startsEndsBrace seg = false)
    (hlk : lookupNode node seg = .ok nd)
    (hrc : resourceOf nd seg = .ok (some (.leaf h)))
    (hmp : map_params h.params urlctx = .ok ctx2)
    (him : h.impl ctx2 = .ok v) :
    walk urlvars (seg :: rest) node urlctx none resp = .uncaught .nameError := by
  rw [walk]
  simp only [hseg, Bool.false_eq_true, reduceIte, hlk, hrc, hmp, him]
  rfl

/-- Started with both locals unbound, a walk over placeholder-free
segments can never return normally: any invocation crashes on the
store-back, and with no invocation the final `return response` is an
unbound-local error. -/
theorem walk_no_placeholder_not_ok (urlvars : List (Str × Str)) :
    ∀ (segs : List Str) (node : Node) (urlctx : List (Str × Val)) (v : Val),
      (∀ s ∈ segs, startsEndsBrace s = false) →
      walk urlvars segs node urlctx none none ≠ .ok v := by
  intro segs
  induction segs with
  | nil =>
      intro node urlctx v _ h
      rw [walk] at h
      simp at h
  | cons seg rest ih =>
      intro node urlctx v hnoph h
      have hseg : startsEndsBrace seg = false := hnoph seg (by simp)
      have hrest : ∀ s ∈ rest, startsEndsBrace s = false :=
        fun s hs => hnoph s (by simp [hs])
      rw [walk] at h
      simp only [hseg, Bool.false_eq_true, reduceIte] at h
      repeat' split at h
      all_goals
        first
          | simp at h
          | exact ih _ urlctx v hrest h

/-- `map_params` leaves a context unchanged when every entry's name is
declared without an annotation. -/
theorem map_params_id (mappings : List (Str × Option Conv)) :
    ∀ ctx : List (Str × Val),
      (∀ p ∈ ctx, assoc p.1 mappings = some none) →
      map_params mappings ctx = .ok ctx := by
  intro ctx
  induction ctx with
  | nil => intro _; rfl
  | cons p rest ih =>
      intro hall
      obtain ⟨nm, v⟩ := p
      have h1 : assoc nm mappings = some none := hall (nm, v) (by simp)
      rw [map_params, h1, ih (fun q hq => hall q (by simp [hq]))]

/-- `map_params` raises `KeyError` as soon as it meets a context name
absent from the handler's signature. -/
theorem map_params_missing (mappings : List (Str × Option Conv))
    (nm : Str) (v : Val) (rest : List (Str × Val))
    (h : assoc nm mappings = none) :
    map_params mappings ((nm, v) :: rest) = .error .keyError := by
  rw [map_params, h]

/-- `map_params` applies the declared converter to an annotated entry. -/
theorem map_params_conv (mappings : List (Str × Option Conv))
    (nm : Str) (v v' : Val) (cf : Conv)
    (h1 : assoc nm mappings = some (some cf)) (h2 : cf v = some v') :
    map_params mappings [(nm, v)] = .ok [(nm, v')] := by
  simp [map_params, h1, h2]

/-- First-match-wins: with every route before it failing to match, the
first matching route's controller handles the request; with no route
matching, the router answers `HTTPNotFound`. -/
theorem routerCall_spec :
    (∀ (ros₁ : List (List Tok × (List (Str × Str) → Final)))
       (pat : List Tok) (ctrl : List (Str × Str) → Final)
       (ros₂ : List (List Tok × (List (Str × Str) → Final)))
       (path : Str) (gs : List (Str × Str)),
       (∀ r ∈ ros₁, reMatch r.1 path = none) →
       reMatch pat path = some gs →
       routerCall (ros₁ ++ (pat, ctrl) :: ros₂) path = ctrl gs) ∧
    (∀ (routes : List (List Tok × (List (Str × Str) → Final))) (path : Str),
       (∀ r ∈ routes, reMatch r.1 path = none) →
       routerCall routes path = .httpResp .notFound) := by
  constructor
  · intro ros₁
    induction ros₁ with
    | nil =>
        intro pat ctrl ros₂ path gs _ hm
        rw [List.nil_append, routerCall, hm]
    | cons r ros ih =>
        intro pat ctrl ros₂ path gs hnone hm
        obtain ⟨rpat, rctrl⟩ := r
        have h1 : reMatch rpat path = none := hnone (rpat, rctrl) (by simp)
        rw [List.cons_append, routerCall, h1]
        exact ih pat ctrl ros₂ path gs (fun q hq => hnone q (by simp [hq])) hm
  · intro routes
    induction routes with
    | nil => intro path _; rfl
    | cons r ros ih =>
        intro path hnone
        obtain ⟨rpat, rctrl⟩ := r
        have h1 : reMatch rpat path = none := hnone (rpat, rctrl) (by simp)
        rw [routerCall, h1]
        exact ih path (fun q hq => hnone q (by simp [hq]))

theorem generate_sitemap_nil (px : List Str) :
    generate_sitemap [] px = .ok [] := by
  rw [generate_sitemap]

theorem generate_sitemap_cons_branch (k : Str) (ch rest : List (Str × Node))
    (px : List Str) :
    generate_sitemap ((k, .branch ch) :: rest) px =
      match generate_sitemap ch (px ++ [k]) with
      | .error e => .error e
      | .ok inner =>
          match generate_sitemap rest px with
          | .error e => .error e
          | .ok tl => .ok (inner ++ tl) := by
  rw [generate_sitemap]

theorem generate_sitemap_cons_leaf (k : Str) (h : Handler)
    (rest : List (Str × Node)) (px : List Str) :
    generate_sitemap ((k, .leaf h) :: rest) px =
      match generate_sitemap rest (if k ≠ [] then px ++ [k] else px) with
      | .error e => .error e
      | .ok tl => .ok ((if k ≠ [] then px ++ [k] else px, h) :: tl) := by
  rw [generate_sitemap]

theorem generate_sitemap_cons_invalid (k : Str) (t : Str)
    (rest : List (Str × Node)) (px : List Str) :
    generate_sitemap ((k, .invalid t) :: rest) px =
      .error ("Invalid datatype for sitemap".data) := by
  rw [generate_sitemap]

theorem generate_sitemap_error :
    ∀ (sm : List (Str × Node)) (px : List Str) (e : Str),
      generate_sitemap sm px = .error e →
      e = "Invalid datatype for sitemap".data := by
  intro sm px
  induction sm, px using generate_sitemap.induct with
  | case1 px =>
      intro e h
      rw [generate_sitemap] at h
      exact absurd h (by simp)
  | case2 seg rest px ch e1 hch ih =>
      intro e h
      rw [generate_sitemap_cons_branch, hch] at h
      injection h with h1
      rw [← h1]
      exact ih e1 hch
  | case3 seg rest px ch tl hch e1 hrest ihch ihrest =>
      intro e h
      rw [generate_sitemap_cons_branch, hch, hrest] at h
      injection h with h1
      rw [← h1]
      exact ihrest e1 hrest
  | case4 seg rest px ch tl hch tl2 hrest ihch ihrest =>
      intro e h
      rw [generate_sitemap_cons_branch, hch, hrest] at h
      exact absurd h (by simp)
  | case5 seg rest px hdl px' e1 hrest ih =>
      intro e h
      rw [generate_sitemap_cons_leaf] at h
      rw [show (if seg ≠ [] then px ++ [seg] else px) = px' from rfl] at h
      rw [hrest] at h
      injection h with h1
      rw [← h1]
      exact ih e1 hrest
  | case6 seg rest px hdl px' tl hrest ih =>
      intro e h
      rw [generate_sitemap_cons_leaf] at h
      rw [show (if seg ≠ [] then px ++ [seg] else px) = px' from rfl] at h
      rw [hrest] at h
      exact absurd h (by simp)
  | case7 seg rest px t =>
      intro e h
      rw [generate_sitemap_cons_invalid] at h
      injection h with h1
      exact h1.symm

/-- As long as every earlier sibling is a nested mapping or an
empty-key handler, the loop prefix is untouched when the traversal
reaches an empty-key leaf, which is then emitted at exactly the
accumulated path, and the remaining siblings continue from that same
prefix. -/
theorem generate_sitemap_empty_key (h : Handler) :
    ∀ (pre post : List (Str × Node)) (px : List Str),
      (∀ p ∈ pre, (∃ ch, p.2 = Node.branch ch) ∨ p.1 = []) →
      generate_sitemap (pre ++ ([], Node.leaf h) :: post) px =
        match generate_sitemap pre px with
        | .error e => .error e
        | .ok l1 =>
            match generate_sitemap post px with
            | .error e => .error e
            | .ok l2 => .ok (l1 ++ (px, h) :: l2) := by
  intro pre
  induction pre with
  | nil =>
      intro post px _
      rw [List.nil_append, generate_sitemap_cons_leaf]
      rw [generate_sitemap_nil]
      simp only [ne_eq, not_true_eq_false, reduceIte]
      cases hpost : generate_sitemap post px with
      | error e => rfl
      | ok l2 => rfl
  | cons p pre' ih =>
      intro post px hok
      obtain ⟨k, nd⟩ := p
      rcases hok (k, nd) (by simp) with ⟨ch, hch⟩ | hk
      · simp only [] at hch
        subst hch
        rw [List.cons_append, generate_sitemap_cons_branch,
          generate_sitemap_cons_branch]
        cases hc : generate_sitemap ch (px ++ [k]) with
        | error e => rfl
        | ok inner =>
            rw [ih post px (fun q hq => hok q (by simp [hq]))]
            cases h1 : generate_sitemap pre' px with
            | error e => rfl
            | ok l1 =>
                cases h2 : generate_sitemap post px with
                | error e => rfl
                | ok l2 => simp
      · simp only [] at hk
        subst hk
        cases nd with
        | branch ch =>
            rw [List.cons_append, generate_sitemap_cons_branch,
              generate_sitemap_cons_branch]
            cases hc : generate_sitemap ch (px ++ [[]]) with
            | error e => rfl
            | ok inner =>
                rw [ih post px (fun q hq => hok q (by simp [hq]))]
                cases h1 : generate_sitemap pre' px with
                | error e => rfl
                | ok l1 =>
                    cases h2 : generate_sitemap post px with
                    | error e => rfl
                    | ok l2 => simp
        | leaf h' =>
            rw [List.cons_append, generate_sitemap_cons_leaf,
              generate_sitemap_cons_leaf]
            simp only [ne_eq, not_true_eq_false, reduceIte]
            rw [ih post px (fun q hq => hok q (by simp [hq]))]
            cases h1 : generate_sitemap pre' px with
            | error e => rfl
            | ok l1 =>
                cases h2 : generate_sitemap post px with
                | error e => rfl
                | ok l2 => simp
        | invalid t =>
            rw [List.cons_append, generate_sitemap_cons_invalid,
              generate_sitemap_cons_invalid]

theorem wordRunLen_all (s : Str) (hw : ∀ c ∈ s, isWordChar c) :
    wordRunLen s = s.length := by
  induction s with
  | nil => rfl
  | cons c cs ih =>
      have hc : isWordChar c := hw c (by simp)
      rw [wordRunLen]
      simp [hc, ih (fun x hx => hw x (by simp [hx]))]

/-- The compiled pattern of the template `['', '{n}']` matches exactly
`'/'` followed by one non-empty word run, capturing it whole. -/
theorem reMatch_one_ph (n s : Str) (hne : s ≠ [])
    (hw : ∀ c ∈ s, isWordChar c) :
    reMatch [.lit ['/'], .grp n, .lit []] ('/' :: s) = some [(n, s)] := by
  show tryCap n s (reMatch [Tok.lit []]) (wordRunLen s) = some [(n, s)]
  rw [wordRunLen_all s hw]
  cases s with
  | nil => exact absurd rfl hne
  | cons c cs =>
      show tryCap n (c :: cs) (reMatch [Tok.lit []]) (cs.length + 1) =
        some [(n, c :: cs)]
      rw [tryCap]
      rw [show (c :: cs).drop (cs.length + 1) = [] from by
        simp [List.drop_length]]
      rw [show reMatch [Tok.lit []] [] = some [] from rfl]
      rw [show (c :: cs).take (cs.length + 1) = c :: cs from by
        simp [List.take_length]]

/-- Claim C1, counterexample: in the sitemap `{'{x}': {'': outer, 'g':
inner}}` where the outer handler returns `V = '42'` and the inner
handler *annotates* `x` with `int`, dispatching `/7/g` hands the inner
handler `int('42') = 42`, not `V` itself, so the handoff is not
identity-preserving for annotated parameters. -/
theorem c1_counterexample :
    tawdryApp c1Sitemap "/7/g".data = .ok (.body (.vnat 42)) ∧
      (Except.ok (Final.body (.vnat 42)) : Except Str Final) ≠
        Except.ok (Final.body (.vstr "42".data)) := by
  constructor
  · have h1 : generate_sitemap c1Sitemap [[]] =
        .ok [([[], "{x}".data], c1OuterH),
             ([[], "{x}".data, "g".data], c1InnerH)] := by
      simp [c1Sitemap, generate_sitemap]
    simp only [tawdryApp, tawdryInit, h1]
    rfl
  · simp

/-- Claim C1, amended: the dispatcher stores the outer handler's
return value `V` back into the context under the most recently bound
parameter name, and the inner handler is invoked with exactly `V`
bound to that name whenever the inner handler declares no type
annotation for it (an annotation would be applied to `V` first). -/
theorem c1_amended (V : Val) (G : List (Str × Val) → Except HErr Val) (s : Str) :
    get_route_response (c1Fam V G) [[], "{x}".data, "g".data] [("x".data, s)] =
      match G [("x".data, V)] with
      | .error e => Outcome.http e
      | .ok r => Outcome.ok r := rfl

/-- Claim C2, counterexample: in the `web.py` variant an empty-string
key *does* lengthen the route: `generate_sitemap({'': h}, prefix='')`
yields the segment list `['', '']` rather than the parent's own path
`['']`, because the emptiness test is made on the singleton list
`[segment]`, which is never empty. -/
theorem c2_counterexample :
    generate_sitemap_web [([], .leaf (constHandler .vnone))] (some (.pstr [])) =
      .ok [([.pstr [], .pstr []], constHandler .vnone)] ∧
      ([PyVal.pstr [], PyVal.pstr []] : List PyVal) ≠ [PyVal.pstr []] := by
  constructor
  · simp [generate_sitemap_web, generate_sitemap_web.go]
  · simp

/-- Claim C2, amended: in the `tawdry.py` variant, an empty-string
leaf is emitted at exactly the accumulated prefix — the empty key adds
no segment — provided no earlier sibling of the same mapping is a
handler under a non-empty key (such a sibling contaminates the loop
prefix); the `web.py` variant instead appends an empty segment. -/
theorem c2_amended (h : Handler) (pre post : List (Str × Node)) (px : List Str)
    (hok : ∀ p ∈ pre, (∃ ch, p.2 = Node.branch ch) ∨ p.1 = []) :
    generate_sitemap (pre ++ ([], Node.leaf h) :: post) px =
      match generate_sitemap pre px with
      | .error e => .error e
      | .ok l1 =>
          match generate_sitemap post px with
          | .error e => .error e
          | .ok l2 => .ok (l1 ++ (px, h) :: l2) :=
  generate_sitemap_empty_key h pre post px hok

/-- Claim C2, witness: a branch sibling before the empty-key leaf;
the leaf's route is the bare prefix. -/
theorem c2_witness :
    generate_sitemap [("a".data, Node.branch []), ([], Node.leaf (constHandler .vnone))]
        [[]] = .ok [([[]], constHandler .vnone)] := by
  have h := c2_amended (constHandler .vnone) [("a".data, Node.branch [])] [] [[]]
    (by
      intro p hp
      simp at hp
      subst hp
      exact Or.inl ⟨[], rfl⟩)
  rw [show [("a".data, Node.branch [])] ++ ([], Node.leaf (constHandler .vnone)) :: [] =
      [("a".data, Node.branch []), ([], Node.leaf (constHandler .vnone))] from rfl] at h
  rw [h]
  simp [generate_sitemap]

/-- Claim C3: evaluating the tawdry compiler on `{'a': f, 'b': g}`
shows the contamination: the route for `g` is `['', 'a', 'b']` — it
contains the sibling key `'a'` — instead of the root-to-leaf path
`['', 'b']`. -/
theorem c3_contamination :
    generate_sitemap
        [("a".data, .leaf (constHandler .vnone)),
         ("b".data, .leaf (constHandler (.vnat 1)))] [[]] =
      .ok [([[], "a".data], constHandler .vnone),
           ([[], "a".data, "b".data], constHandler (.vnat 1))] ∧
      ([[], "a".data, "b".data] : List Str) ≠ [[], "b".data] := by
  constructor
  · simp [generate_sitemap]
  · simp

/-- Claim C9, counterexample: two sitemaps with different offending
keys produce the *same* fixed error text, which moreover does not
contain the offending key — the error does not name the offending key
path. -/
theorem c9_counterexample :
    generate_sitemap [("alpha".data, .invalid "t1".data)] [[]] =
      .error ("Invalid datatype for sitemap".data) ∧
    generate_sitemap [("beta".data, .invalid "t2".data)] [[]] =
      .error ("Invalid datatype for sitemap".data) ∧
    ¬ List.IsInfix "alpha".data ("Invalid datatype for sitemap".data) := by
  refine ⟨?_, ?_, ?_⟩
  · simp [generate_sitemap]
  · simp [generate_sitemap]
  · decide

/-- Claim C9, amended: compilation does fail fast — the invalid node
aborts `generate_sitemap`, hence `Tawdry.__init__`, before any request
is served — but the only error ever raised is the fixed text
`'Invalid datatype for sitemap'`, which names no key path. -/
theorem c9_amended :
    (∀ (sm : List (Str × Node)) (px : List Str) (e : Str),
       generate_sitemap sm px = .error e →
       e = "Invalid datatype for sitemap".data) ∧
    (∀ (sm : List (Str × Node)) (e : Str),
       tawdryInit sm = .error e →
       e = "Invalid datatype for sitemap".data) := by
  constructor
  · exact generate_sitemap_error
  · intro sm e h
    rw [tawdryInit] at h
    cases hg : generate_sitemap sm [[]] with
    | error e' =>
        rw [hg] at h
        injection h with h1
        rw [← h1]
        exact generate_sitemap_error sm [[]] e' hg
    | ok routes => rw [hg] at h; exact absurd h (by simp)

/-- Claim C9, witness: the amended theorem applied to a concrete
invalid sitemap. -/
theorem c9_witness :
    generate_sitemap [("k".data, Node.invalid "v".data)] [[]] =
      .error ("Invalid datatype for sitemap".data) ∧
    "Invalid datatype for sitemap".data = "Invalid datatype for sitemap".data := by
  have heval : generate_sitemap [("k".data, Node.invalid "v".data)] [[]] =
      .error ("Invalid datatype for sitemap".data) := by
    simp [generate_sitemap]
  exact ⟨heval, c9_amended.1 [("k".data, Node.invalid "v".data)] [[]]
    ("Invalid datatype for sitemap".data) heval⟩

/-- Claim C4, counterexample: `{'{x}': f, 'b': g}` compiles (through
the prefix contamination) a route `['', '{x}', 'b']` whose pattern
matches `/z/b`; the re-walk then subscripts the function node `f` with
`'b'`, and the resulting `TypeError` escapes as an unchecked internal
error — the dispatcher does not produce a NOT-FOUND response. -/
theorem c4_counterexample :
    tawdryApp (c4Fam (fun _ => .vnone)) "/z/b".data = .ok (.crash .typeError) ∧
      (Except.ok (Final.crash RunErr.typeError) : Except Str Final) ≠
        Except.ok (Final.httpResp HErr.notFound) := by
  constructor
  · have h1 : generate_sitemap (c4Fam (fun _ => .vnone)) [[]] =
        .ok [([[], "{x}".data],
              ⟨[("x".data, none)], fun ctx => .ok ((fun _ => Val.vnone) ctx)⟩),
             ([[], "{x}".data, "b".data], constHandler .vnone)] := by
      simp [c4Fam, generate_sitemap]
    simp only [tawdryApp, tawdryInit, h1]
    rfl
  · simp

/-- Claim C4, amended: whatever the first handler computes, a re-walk
lookup failure (here: subscripting a callable node) propagates as an
uncaught `TypeError` to the server boundary; it is not converted into
a NOT-FOUND response. -/
theorem c4_amended (F : List (Str × Val) → Val) :
    tawdryApp (c4Fam F) "/z/b".data = .ok (.crash .typeError) := by
  have h1 : generate_sitemap (c4Fam F) [[]] =
      .ok [([[], "{x}".data],
            ⟨[("x".data, none)], fun ctx => .ok (F ctx)⟩),
           ([[], "{x}".data, "b".data], constHandler .vnone)] := by
    simp [c4Fam, generate_sitemap]
  simp only [tawdryApp, tawdryInit, h1]
  rfl

/-- Claim C5, counterexample: with the handler parameter annotated
`int`, the request `/abc` fails conversion and the raised error
escapes as an uncaught exception (a server fault), not as an HTTP
400-class response. -/
theorem c5_counterexample :
    tawdryApp (c5Fam toIntConv) "/abc".data = .ok (.crash .convError) ∧
      (Except.ok (Final.crash RunErr.convError) : Except Str Final) ≠
        Except.ok (Final.httpResp HErr.badRequest) := by
  constructor
  · have h1 : generate_sitemap (c5Fam toIntConv) [[]] =
        .ok [([[], "{x}".data],
              ⟨[("x".data, some toIntConv)], fun _ => .ok .vnone⟩)] := by
      simp [c5Fam, generate_sitemap]
    simp only [tawdryApp, tawdryInit, h1]
    rfl
  · simp

/-- Claim C5, amended: whenever the declared converter rejects the
captured word, dispatch of `/<word>` ends in an uncaught conversion
error at the server boundary — no 400-class response is produced. -/
theorem c5_amended (cf : Conv) (s : Str) (hne : s ≠ [])
    (hw : ∀ c ∈ s, isWordChar c) (hcf : cf (.vstr s) = none) :
    tawdryApp (c5Fam cf) ('/' :: s) = .ok (.crash .convError) := by
  have h1 : generate_sitemap (c5Fam cf) [[]] =
      .ok [([[], "{x}".data],
            ⟨[("x".data, some cf)], fun _ => .ok .vnone⟩)] := by
    simp [c5Fam, generate_sitemap]
  have h3 := reMatch_one_ph "x".data s hne hw
  simp only [tawdryApp, tawdryInit, h1, List.map]
  rw [routerCall]
  rw [show compile_route_regex [[], "{x}".data] =
      [.lit ['/'], .grp "x".data, .lit []] from rfl]
  rw [h3]
  simp only []
  congr 1
  have h4 : get_route_response (.branch (c5Fam cf)) [[], "{x}".data]
      [("x".data, s)] = .uncaught .convError := by
    simp [get_route_response, walk, startsEndsBrace, assoc, setAssoc,
      lookupNode, resourceOf, nodeTruthy, map_params, c5Fam, hcf]
  rw [h4]
  rfl

/-- Claim C5, witness: the amended theorem at `cf = int`, `s = "abc"`. -/
theorem c5_witness :
    tawdryApp (c5Fam toIntConv) ('/' :: "abc".data) = .ok (.crash .convError) :=
  c5_amended toIntConv "abc".data (by decide) (by decide) (by decide)

/-- Claim C6, counterexample: a context entry whose name is absent
from the handler's signature does not pass through — `map_params`
raises `KeyError`. -/
theorem c6_counterexample :
    map_params [] [("x".data, .vstr "a".data)] = .error .keyError ∧
      (Except.error RunErr.keyError : Except RunErr (List (Str × Val))) ≠
        Except.ok [("x".data, .vstr "a".data)] := by
  exact ⟨rfl, by simp⟩

/-- Claim C6, amended: entries the handler declares without annotation
pass through unchanged and only annotated entries are transformed, but
an entry whose name is absent from the signature raises `KeyError`
instead of passing through. -/
theorem c6_amended :
    (∀ (mappings : List (Str × Option Conv)) (ctx : List (Str × Val)),
       (∀ p ∈ ctx, assoc p.1 mappings = some none) →
       map_params mappings ctx = .ok ctx) ∧
    (∀ (mappings : List (Str × Option Conv)) (nm : Str) (v : Val)
       (rest : List (Str × Val)),
       assoc nm mappings = none →
       map_params mappings ((nm, v) :: rest) = .error .keyError) ∧
    (∀ (mappings : List (Str × Option Conv)) (nm : Str) (v v' : Val) (cf : Conv),
       assoc nm mappings = some (some cf) → cf v = some v' →
       map_params mappings [(nm, v)] = .ok [(nm, v')]) :=
  ⟨map_params_id, map_params_missing, map_params_conv⟩

/-- Claim C6, witness: the amended theorem at concrete inputs —
pass-through of an unannotated entry, `KeyError` on an undeclared
name, and conversion of an annotated entry. -/
theorem c6_witness :
    map_params [("a".data, none)] [("a".data, .vnat 5)] = .ok [("a".data, .vnat 5)] ∧
    map_params [] [("x".data, .vnone)] = .error .keyError ∧
    map_params [("n".data, some toIntConv)] [("n".data, .vstr "7".data)] =
      .ok [("n".data, .vnat 7)] :=
  ⟨c6_amended.1 [("a".data, none)] [("a".data, .vnat 5)]
     (by intro p hp; simp at hp; rw [hp]; rfl),
   c6_amended.2.1 [] "x".data .vnone [] rfl,
   c6_amended.2.2 [("n".data, some toIntConv)] "n".data (.vstr "7".data)
     (.vnat 7) toIntConv rfl rfl⟩

/-- Claim C7: the router tries the compiled routes in declaration
order; the first whose pattern matches handles the request with its
captured groups, and if none matches the router emits `HTTPNotFound`
and stops. -/
theorem c7_first_match :
    (∀ (ros₁ : List (List Tok × (List (Str × Str) → Final)))
       (pat : List Tok) (ctrl : List (Str × Str) → Final)
       (ros₂ : List (List Tok × (List (Str × Str) → Final)))
       (path : Str) (gs : List (Str × Str)),
       (∀ r ∈ ros₁, reMatch r.1 path = none) →
       reMatch pat path = some gs →
       routerCall (ros₁ ++ (pat, ctrl) :: ros₂) path = ctrl gs) ∧
    (∀ (routes : List (List Tok × (List (Str × Str) → Final))) (path : Str),
       (∀ r ∈ routes, reMatch r.1 path = none) →
       routerCall routes path = .httpResp .notFound) :=
  routerCall_spec

/-- Claim C7, witness: with two routes, a path matched only by the
second is handled by the second, and an unmatched path yields
`HTTPNotFound`. -/
theorem c7_witness :
    routerCall [([Tok.lit "/a".data], fun _ => Final.body (.vnat 1)),
                ([Tok.lit "/b".data], fun _ => Final.body (.vnat 2))] "/b".data =
      Final.body (.vnat 2) ∧
    routerCall [([Tok.lit "/a".data], fun _ => Final.body (.vnat 1))] "/c".data =
      Final.httpResp .notFound := by
  constructor
  · exact c7_first_match.1 [([Tok.lit "/a".data], fun _ => Final.body (.vnat 1))]
      [Tok.lit "/b".data] (fun _ => Final.body (.vnat 2)) [] "/b".data []
      (by intro r hr; simp at hr; rw [hr]; rfl) rfl
  · exact c7_first_match.2 [([Tok.lit "/a".data], fun _ => Final.body (.vnat 1))]
      "/c".data (by intro r hr; simp at hr; rw [hr]; rfl)

/-- Claim C8, counterexample: the trailing `$` of a compiled pattern
also matches just before a final newline, so the pattern for
`['', 'a', '{x}']` matches the path `"/a/q\n"` while capturing only
`"q"` — the corresponding path segment text is `"q\n"`, which the
captured value does not equal. -/
theorem c8_counterexample :
    reMatch (compile_route_regex [[], "a".data, "{x}".data]) "/a/q\n".data =
      some [("x".data, "q".data)] ∧
    "/a/q\n".data = joinSeg [[], "a".data, 'q' :: ['\n']] ∧
    "q".data ≠ 'q' :: ['\n'] := by
  refine ⟨rfl, rfl, by simp⟩

/-- Claim C8, amended: for a segment-structured template, a matched
path equals the template with each placeholder replaced by its capture
(so captures are whole segments), possibly followed by one tolerated
trailing newline admitted by the `$` anchor; and every capture is a
non-empty run of word characters, never containing a slash. -/
theorem c8_amended (template : List Str) (path : Str) (gs : List (Str × Str))
    (hseg : ∀ s ∈ template, SegOk s)
    (hm : reMatch (compile_route_regex template) path = some gs) :
    (path = joinSeg (substTemplate template gs) ∨
     path = joinSeg (substTemplate template gs) ++ ['\n']) ∧
    ∀ p ∈ gs, p.2 ≠ [] ∧ (∀ c ∈ p.2, isWordChar c) ∧ '/' ∉ p.2 := by
  have hc : compile_route_regex template = canonToks template :=
    tokenize_canon template hseg
  rw [hc] at hm
  obtain ⟨hdec, halign⟩ := reMatch_sound _ _ _ hm
  have hb := canon_build template gs halign
  refine ⟨by rw [← hb]; exact hdec, ?_⟩
  intro p hp
  obtain ⟨h1, h2⟩ := gsAligned_caps _ _ halign p hp
  refine ⟨h1, h2, fun hmem => ?_⟩
  exact absurd (h2 '/' hmem) (by decide)

/-- Claim C8, witness: the amended theorem on the template
`['', 'a', '{x}']` and the path `/a/foo`. -/
theorem c8_witness :
    ("/a/foo".data = joinSeg (substTemplate [[], "a".data, "{x}".data]
        [("x".data, "foo".data)]) ∨
     "/a/foo".data = joinSeg (substTemplate [[], "a".data, "{x}".data]
        [("x".data, "foo".data)]) ++ ['\n']) ∧
    ∀ p ∈ [("x".data, "foo".data)],
      p.2 ≠ [] ∧ (∀ c ∈ p.2, isWordChar c) ∧ '/' ∉ p.2 :=
  c8_amended [[], "a".data, "{x}".data] "/a/foo".data [("x".data, "foo".data)]
    (by
      intro s hs
      simp at hs
      rcases hs with rfl | rfl | rfl
      · exact SegOk.litr [] (by simp)
      · exact SegOk.litr "a".data (by decide)
      · exact SegOk.ph "x".data (by decide) (by decide))
    rfl

/-- Claim C10: (1) whenever a handler invocation is reached while the
`keyword` local is still unbound and the handler returns normally, the
walk crashes with an unbound-name error on the store-back line,
whatever the surrounding state; (2) a route whose template contains no
placeholder can never produce a normal response (with no invocation
the final `return response` is itself an unbound-name error). -/
theorem c10_unbound_keyword :
    (∀ (urlvars : List (Str × Str)) (seg : Str) (rest : List Str)
       (node nd : Node) (urlctx ctx2 : List (Str × Val)) (resp : Option Val)
       (h : Handler) (v : Val),
       startsEndsBrace seg = false →
       lookupNode node seg = .ok nd →
       resourceOf nd seg = .ok (some (.leaf h)) →
       map_params h.params urlctx = .ok ctx2 →
       h.impl ctx2 = .ok v →
       walk urlvars (seg :: rest) node urlctx none resp = .uncaught .nameError) ∧
    (∀ (sm : Node) (template : List Str) (urlvars : List (Str × Str)) (v : Val),
       (∀ s ∈ template, startsEndsBrace s = false) →
       get_route_response sm template urlvars ≠ .ok v) := by
  constructor
  · exact walk_invoke_unbound
  · intro sm template urlvars v hnoph
    cases template with
    | nil =>
        rw [get_route_response]
        simp
    | cons t rest =>
        rw [get_route_response]
        exact walk_no_placeholder_not_ok urlvars rest sm [] v
          (fun s hs => hnoph s (by simp [hs]))

/-- Claim C10, witness: an index handler under a literal segment
(`{'lit': {'': h}}`, route `['', 'lit']`) reaches its invocation with
`keyword` unbound and crashes with the unbound-name error; and a
literal-only route never completes normally. -/
theorem c10_witness :
    walk [] ["lit".data]
        (.branch [("lit".data, .branch [([], .leaf (constHandler .vnone))])])
        [] none none = .uncaught .nameError ∧
    get_route_response
        (.branch [("q".data, .leaf (constHandler .vnone))]) [[], "q".data] [] ≠
      .ok .vnone := by
  constructor
  · exact c10_unbound_keyword.1 [] "lit".data []
      (.branch [("lit".data, .branch [([], .leaf (constHandler .vnone))])])
      (.branch [([], .leaf (constHandler .vnone))]) [] [] none
      (constHandler .vnone) .vnone (by decide) rfl rfl rfl rfl
  · exact c10_unbound_keyword.2
      (.branch [("q".data, .leaf (constHandler .vnone))]) [[], "q".data] [] .vnone
      (by intro s hs; simp at hs; rcases hs with rfl | rfl <;> decide)
